import Mathlib

/-!
Shallow embedding of the compiler subsystem entry points declared in
include/swift/Subsystems.h.  The repository ships only the declarations and
their documentation; the behaviour behind each entry point is therefore
modelled from the specification, as recorded in the doc comment of each
definition below.
-/

namespace Swift

/-- Modelled from the spec: a raw lexeme of an input buffer as seen by the
lexer, whose implementation is not under src.  A raw lexeme is either well
formed or a malformed literal. -/
inductive RawLexeme
  | wellFormed (kind : Nat)
  | malformedLiteral (text : Nat)
  deriving DecidableEq

/-- Modelled from the spec: token kinds; a malformed literal is emitted as an
error-kind token, never raised as an exception. -/
inductive TokenKind
  | ordinary (kind : Nat)
  | errorKind
  deriving DecidableEq

/-- Modelled from the spec: a token with its kind and its source position. -/
structure Token where
  kind : TokenKind
  pos : Nat
  deriving DecidableEq

/-- Modelled from the spec: lexing a single raw lexeme never fails; a
malformed literal becomes an error-kind token. -/
def lexOne (pos : Nat) (r : RawLexeme) : Token :=
  match r with
  | .wellFormed k => { kind := TokenKind.ordinary k, pos := pos }
  | .malformedLiteral _ => { kind := TokenKind.errorKind, pos := pos }

/-- Modelled from the spec: the lexer cursor walking the requested range, one
raw lexeme at a time. -/
def tokenizeFrom (pos : Nat) : List RawLexeme → Nat → List Token
  | _, 0 => []
  | [], _ + 1 => []
  | r :: rest, n + 1 => lexOne pos r :: tokenizeFrom (pos + 1) rest n

/-- Modelled from the spec: tokenize (Subsystems.h line 107) lexes the range
from offset to endOffset of the given buffer into a finite token sequence;
lexical errors never abort tokenization. -/
def tokenize (buffer : List RawLexeme) (offset endOffset : Nat) : List Token :=
  tokenizeFrom offset (buffer.drop offset) (endOffset - offset)

/-- Modelled from the spec: raw top-level constructs of a buffer as consumed
by the parser: import declarations, expression statements (the side-effecting
stmt-brace-items), and function declarations, which may be malformed. -/
inductive RawItem
  | importDecl (m : Nat)
  | exprStmt (e : Nat)
  | funcDecl (name : Nat) (wellFormed : Bool)
  deriving DecidableEq

/-- Modelled from the spec: among top-level constructs, exactly the expression
statements have observable side effects (Subsystems.h lines 77-78). -/
def RawItem.hasSideEffects : RawItem → Bool
  | .exprStmt _ => true
  | _ => false

/-- Modelled from the spec: parsed top-level AST items; a malformed
declaration parses to a best-effort error placeholder node. -/
inductive Item
  | importDecl (m : Nat)
  | exprStmt (e : Nat)
  | funcDecl (name : Nat)
  | errorPlaceholder (src : Nat)
  deriving DecidableEq

/-- Modelled from the spec: among parsed items, exactly the expression
statements have observable side effects. -/
def Item.hasSideEffects : Item → Bool
  | .exprStmt _ => true
  | _ => false

/-- Modelled from the spec: a structured diagnostic record carrying its source
span. -/
structure Diagnostic where
  span : Nat
  deriving DecidableEq

/-- Modelled from the spec: parsing one raw construct; a syntactically
malformed declaration yields one Diagnostic and an error placeholder node so
that sibling declarations continue to parse. -/
def parseItem : RawItem → Item × List Diagnostic
  | .importDecl m => (Item.importDecl m, [])
  | .exprStmt e => (Item.exprStmt e, [])
  | .funcDecl n true => (Item.funcDecl n, [])
  | .funcDecl n false => (Item.errorPlaceholder n, [{ span := n }])

/-- Modelled from the spec: the outcome of one parse call over a buffer. -/
structure ParseCore where
  items : List Item
  diags : List Diagnostic
  foundSideEffect : Bool
  done : Bool
  deriving DecidableEq

/-- Modelled from the spec: the parser loop over a buffer; when parsing the
main file it stops right after the first side-effecting top-level statement
(Subsystems.h lines 77-78, 94), and Done reports whether the end of the
buffer was actually reached (line 84). -/
def parseItems (isMain : Bool) : List RawItem → ParseCore
  | [] => { items := [], diags := [], foundSideEffect := false, done := true }
  | r :: rest =>
    if isMain && r.hasSideEffects then
      { items := [(parseItem r).1], diags := (parseItem r).2,
        foundSideEffect := true, done := false }
    else
      let res := parseItems isMain rest
      { items := (parseItem r).1 :: res.items,
        diags := (parseItem r).2 ++ res.diags,
        foundSideEffect := res.foundSideEffect, done := res.done }

/-- Modelled from the spec: a SourceUnit is the ordered sequence of top-level
items of one buffer; new elements are appended at the end only. -/
structure SourceFile where
  items : List Item
  deriving DecidableEq

/-- Modelled from the spec: parseIntoSourceFile (Subsystems.h line 95) parses
a buffer into the given source file, appending the parsed items, and reports
whether it found code with side effects and whether the end of the buffer was
reached. -/
def parseIntoSourceFile (sf : SourceFile) (isMain : Bool)
    (buffer : List RawItem) : SourceFile × ParseCore :=
  let res := parseItems isMain buffer
  ({ items := sf.items ++ res.items }, res)

/-- Modelled from the spec: a deferred function body: its token range, its
enclosing declaration context, and whether it was already resolved; consumed
exactly once by the delayed-parsing pass. -/
structure DeferredBody where
  tokens : List Token
  declCtx : Nat
  resolved : Bool
  deriving DecidableEq

/-- Modelled from the spec: parsing the recorded token range of a deferred
body into its body value. -/
def parseDeferredTokens (d : DeferredBody) : Nat :=
  d.tokens.length

/-- Modelled from the spec: resolving one DeferredBody; a second attempt on an
already-resolved body is rejected rather than silently re-parsing. -/
def resolveDeferredBody (d : DeferredBody) : Option (Nat × DeferredBody) :=
  if d.resolved then none
  else some (parseDeferredTokens d, { d with resolved := true })

/-- Modelled from the spec: PersistentParserState, the resumable parser state
holding the deferred bodies in registration order. -/
structure PersistentParserState where
  deferred : List DeferredBody
  deriving DecidableEq

/-- Modelled from the spec: performDelayedParsing (Subsystems.h line 102)
parses each outstanding DeferredBody exactly once, in the order registered,
and marks every body resolved. -/
def performDelayedParsing (st : PersistentParserState) :
    List Nat × PersistentParserState :=
  (st.deferred.filterMap (fun d => (resolveDeferredBody d).map Prod.fst),
   { deferred := st.deferred.map (fun d => { d with resolved := true }) })

/-- Modelled from the spec: resolved types; a failed check leaves the
distinguished error-type sentinel in the slot. -/
inductive Ty
  | concrete (t : Nat)
  | errorSentinel
  deriving DecidableEq

/-- Modelled from the spec: an AST element of a SourceUnit: its parsed item, a
name-binding slot and a resolved-type slot, each starting empty and written
exactly once. -/
structure TElem where
  item : Item
  binding : Option Nat
  slot : Option Ty
  deriving DecidableEq

/-- Modelled from the spec: binding a top-level item to its declaring entity;
an error placeholder binds to an error-placeholder declaration so downstream
phases need no null checks. -/
def bindItem : Item → Nat
  | .importDecl m => m
  | .exprStmt e => e
  | .funcDecl n => n
  | .errorPlaceholder s => s

/-- Modelled from the spec: the name binder writes an empty binding slot once
and never retracts a binding already published. -/
def bindElem (e : TElem) : TElem :=
  match e.binding with
  | some _ => e
  | none => { e with binding := some (bindItem e.item) }

/-- Modelled from the spec: the type computed for an item by constraint
solving; an error placeholder receives the error-type sentinel with no fresh
diagnostic, since its root cause was already diagnosed at parse time. -/
def checkItem : Item → Ty
  | .importDecl _ => Ty.concrete 0
  | .exprStmt e => Ty.concrete (e + 1)
  | .funcDecl n => Ty.concrete (n + 1)
  | .errorPlaceholder _ => Ty.errorSentinel

/-- Modelled from the spec: the type checker writes an empty type slot exactly
once per element. -/
def checkElem (e : TElem) : TElem :=
  match e.slot with
  | some _ => e
  | none => { e with slot := some (checkItem e.item) }

/-- Modelled from the spec: an incremental phase processes the elements at or
after the starting index, leaving the earlier, already-processed elements
untouched. -/
def fillFrom (f : TElem → TElem) (l : List TElem) (start : Nat) : List TElem :=
  l.take start ++ (l.drop start).map f

/-- Modelled from the spec: the mutable state of one SourceUnit across
incremental phase calls: its elements, the collected diagnostics, and the
last StartElem accepted by each of the three incremental phases. -/
structure UnitState where
  elems : List TElem
  diags : List Diagnostic
  nbLast : Nat
  tcLast : Nat
  sgLast : Nat
  deriving DecidableEq

/-- Modelled from the spec: a fresh SourceUnit state over the given
elements. -/
def mkUnit (l : List TElem) : UnitState :=
  { elems := l, diags := [], nbLast := 0, tcLast := 0, sgLast := 0 }

/-- Modelled from the spec: performNameBinding (Subsystems.h line 118) binds
the elements from StartElem on; a StartElem smaller than one previously
accepted is rejected. -/
def performNameBinding (st : UnitState) (startElem : Nat) : Option UnitState :=
  if startElem < st.nbLast then none
  else some { st with elems := fillFrom bindElem st.elems startElem,
                      nbLast := startElem }

/-- Modelled from the spec: performTypeChecking (Subsystems.h line 129)
resolves the types of the elements from StartElem on; a StartElem smaller
than one previously accepted is rejected. -/
def performTypeChecking (st : UnitState) (startElem : Nat) : Option UnitState :=
  if startElem < st.tcLast then none
  else some { st with elems := fillFrom checkElem st.elems startElem,
                      tcLast := startElem }

/-- Modelled from the spec: a basic block of the mid-level IR: typed
instructions and exactly one terminator. -/
structure BasicBlock where
  instrs : List Nat
  terminator : Nat
  deriving DecidableEq

/-- Modelled from the spec: one IR function per source function. -/
structure IRFunc where
  name : Nat
  blocks : List BasicBlock
  deriving DecidableEq

/-- Modelled from the spec: the SILModule produced by IR lowering. -/
structure SILModule where
  funcs : List IRFunc
  deriving DecidableEq

/-- Modelled from the spec: lowering one element: a function declaration with
a resolved non-error type lowers to one IR function; an element still
carrying the error sentinel is skipped, and non-function items produce no IR
function. -/
def lowerElem (e : TElem) : Option IRFunc :=
  match e.item, e.slot with
  | Item.funcDecl n, some (Ty.concrete t) =>
      some { name := n, blocks := [{ instrs := [t], terminator := 0 }] }
  | _, _ => none

/-- Modelled from the spec: performSILGeneration on a source file
(Subsystems.h line 152) lowers the elements from StartElem on into a fresh
SILModule; a StartElem smaller than one previously accepted is rejected. -/
def performSILGeneration (st : UnitState) (startElem : Nat) :
    Option (SILModule × UnitState) :=
  if startElem < st.sgLast then none
  else some ({ funcs := (st.elems.drop startElem).filterMap lowerElem },
             { st with sgLast := startElem })

/-- Modelled from the spec: one incremental re-entry step for name binding:
append the newly parsed elements and rebind from the previous end of the
unit. -/
def nbStep (st : UnitState) (chunk : List TElem) : UnitState :=
  let st₁ : UnitState := { st with elems := st.elems ++ chunk }
  match performNameBinding st₁ st.elems.length with
  | some st₂ => st₂
  | none => st₁

/-- Modelled from the spec: running name binding over a strictly growing unit,
one appended chunk at a time. -/
def runIncrNB (init : UnitState) (chunks : List (List TElem)) : UnitState :=
  chunks.foldl nbStep init

/-- Modelled from the spec: one incremental re-entry step for type checking. -/
def tcStep (st : UnitState) (chunk : List TElem) : UnitState :=
  let st₁ : UnitState := { st with elems := st.elems ++ chunk }
  match performTypeChecking st₁ st.elems.length with
  | some st₂ => st₂
  | none => st₁

/-- Modelled from the spec: running type checking over a strictly growing
unit, one appended chunk at a time. -/
def runIncrTC (init : UnitState) (chunks : List (List TElem)) : UnitState :=
  chunks.foldl tcStep init

/-- Modelled from the spec: one incremental re-entry step for IR lowering,
accumulating the functions of the produced modules. -/
def sgStep (p : UnitState × List IRFunc) (chunk : List TElem) :
    UnitState × List IRFunc :=
  let st₁ : UnitState := { p.1 with elems := p.1.elems ++ chunk }
  match performSILGeneration st₁ p.1.elems.length with
  | some (m, st₂) => (st₂, p.2 ++ m.funcs)
  | none => (st₁, p.2)

/-- Modelled from the spec: running IR lowering over a strictly growing unit,
one appended chunk at a time, accumulating the produced IR functions. -/
def runIncrSG (init : UnitState × List IRFunc) (chunks : List (List TElem)) :
    UnitState × List IRFunc :=
  chunks.foldl sgStep init

/-- Modelled from the spec: one run of IR lowering over a typed element
sequence, as a step relation: each element in order is either skipped or
emits its IR function. -/
inductive LowersTo : List TElem → List IRFunc → Prop
  | nil : LowersTo [] []
  | skip {e : TElem} {rest : List TElem} {out : List IRFunc} :
      lowerElem e = none → LowersTo rest out → LowersTo (e :: rest) out
  | emit {e : TElem} {rest : List TElem} {out : List IRFunc} {f : IRFunc} :
      lowerElem e = some f → LowersTo rest out → LowersTo (e :: rest) (f :: out)

/-- Modelled from the spec: running name binding and then type checking on one
freshly parsed item. -/
def analyzeItem (it : Item) : TElem :=
  checkElem (bindElem { item := it, binding := none, slot := none })

/-- Modelled from the spec: the observable outcome of the full front-to-mid
pipeline on one buffer. -/
structure PipelineOut where
  items : List Item
  diags : List Diagnostic
  types : List Ty
  funcs : List IRFunc
  deriving DecidableEq

/-- Modelled from the spec: the full pipeline on one batch buffer: parse, bind
names, resolve types, lower to IR, collecting the diagnostics, the resolved
types and the produced IR functions. -/
def pipeline (buffer : List RawItem) : PipelineOut :=
  let p := parseItems false buffer
  let checked := p.items.map analyzeItem
  { items := p.items
    diags := p.diags
    types := checked.map (fun e => e.slot.getD Ty.errorSentinel)
    funcs := checked.filterMap lowerElem }

/-- Modelled from the spec: a raw item is a well-formed function
declaration. -/
def RawItem.isWellFormedFunc : RawItem → Bool
  | .funcDecl _ true => true
  | _ => false

/-- Modelled from the spec: a raw item is a malformed declaration. -/
def RawItem.isMalformedDecl : RawItem → Bool
  | .funcDecl _ false => true
  | _ => false

/-- Modelled from the spec: an already-parsed type expression (a TypeLoc). -/
inductive TypeRepr
  | named (n : Nat)
  | fn (a b : TypeRepr)
  | invalid (n : Nat)
  deriving DecidableEq

/-- Modelled from the spec: recursive validation of a single type expression
by the resolution machinery. -/
def validateType : TypeRepr → Bool
  | .named _ => true
  | .fn a b => validateType a && validateType b
  | .invalid _ => false

/-- Modelled from the spec: performTypeLocChecking (Subsystems.h line 138)
validates a single already-parsed type; it returns false on success and true
on error (line 137), and it enqueues a diagnostic only when diagnostics were
requested. -/
def performTypeLocChecking (t : TypeRepr) (isSILType : Bool)
    (produceDiagnostics : Bool) (diags : List Diagnostic) :
    Bool × List Diagnostic :=
  if validateType t then (false, diags)
  else (true, if produceDiagnostics then diags ++ [{ span := 0 }] else diags)

/-- Modelled from the spec: a module: a collection of source files, each an
element sequence (Subsystems.h line 146). -/
structure ModuleRepr where
  sourceFiles : List (List TElem)
  deriving DecidableEq

/-- Modelled from the header documentation (Subsystems.h line 148): the
module-level performSILGeneration requires the module to contain source
files; it is defined only for modules with at least one source file, lowering
each file in turn. -/
def performSILGenerationModule (m : ModuleRepr) : Option SILModule :=
  match m.sourceFiles with
  | [] => none
  | _ :: _ =>
      some { funcs := (m.sourceFiles.map (fun l => l.filterMap lowerElem)).flatten }

/-- Sample unprocessed element used for concrete evaluations. -/
def sampleElem (n : Nat) : TElem :=
  { item := Item.funcDecl n, binding := none, slot := none }

/-- Sample pair of appended chunks used for concrete evaluations. -/
def sampleChunks : List (List TElem) :=
  [[sampleElem 3], [sampleElem 4]]

/-- Sample fully typed element used for concrete evaluations. -/
def sampleTyped : TElem :=
  { item := Item.funcDecl 1, binding := some 1, slot := some (Ty.concrete 2) }

/-- Sample IR function, the lowering of sampleTyped. -/
def sampleIR : IRFunc :=
  { name := 1, blocks := [{ instrs := [2], terminator := 0 }] }

theorem tokenizeFrom_length (l : List RawLexeme) (pos n : Nat) :
    (tokenizeFrom pos l n).length = min n l.length := by
  induction l generalizing pos n with
  | nil => cases n <;> simp [tokenizeFrom]
  | cons r rest ih =>
    cases n with
    | zero => simp [tokenizeFrom]
    | succ m => simp [tokenizeFrom, ih, Nat.succ_min_succ]

theorem tokenizeFrom_get (l : List RawLexeme) (pos n i : Nat) (hi : i < n) :
    (tokenizeFrom pos l n)[i]? = l[i]?.map fun r => lexOne (pos + i) r := by
  induction l generalizing pos n i with
  | nil =>
    cases n with
    | zero => omega
    | succ m => simp [tokenizeFrom]
  | cons r rest ih =>
    cases n with
    | zero => omega
    | succ m =>
      cases i with
      | zero => simp [tokenizeFrom]
      | succ j =>
        have hj : j < m := by omega
        simp only [tokenizeFrom, List.getElem?_cons_succ]
        rw [ih (pos + 1) m j hj]
        have : pos + 1 + j = pos + (j + 1) := by omega
        rw [this]

/-- C8: tokenize is total: it returns a finite token sequence covering the
requested byte range, every raw lexeme of the range is turned into a token
(so no lexical error aborts tokenization before the end of the range), and a
malformed literal is emitted as an error-kind token. -/
theorem tokenize_total_never_aborts (buffer : List RawLexeme)
    (offset endOffset : Nat) :
    (tokenize buffer offset endOffset).length =
        min endOffset buffer.length - offset ∧
    (∀ i r, buffer[i]? = some r → offset ≤ i → i < endOffset →
      (tokenize buffer offset endOffset)[i - offset]? = some (lexOne i r)) ∧
    (∀ i s, buffer[i]? = some (RawLexeme.malformedLiteral s) → offset ≤ i →
      i < endOffset →
      (tokenize buffer offset endOffset)[i - offset]? =
        some { kind := TokenKind.errorKind, pos := i }) := by
  have hget : ∀ i r, buffer[i]? = some r → offset ≤ i → i < endOffset →
      (tokenize buffer offset endOffset)[i - offset]? = some (lexOne i r) := by
    intro i r hr hle hlt
    unfold tokenize
    rw [tokenizeFrom_get _ _ _ _ (by omega)]
    rw [List.getElem?_drop]
    have h1 : offset + (i - offset) = i := by omega
    rw [h1, hr]
    rfl
  refine ⟨?_, hget, ?_⟩
  · unfold tokenize
    rw [tokenizeFrom_length, List.length_drop]
    omega
  · intro i s hr hle hlt
    exact hget i (RawLexeme.malformedLiteral s) hr hle hlt

theorem tokenize_total_never_aborts_w :
    ([RawLexeme.wellFormed 5, RawLexeme.malformedLiteral 7][1]? =
        some (RawLexeme.malformedLiteral 7)) ∧
    (tokenize [RawLexeme.wellFormed 5, RawLexeme.malformedLiteral 7] 0 2)[1]? =
      some { kind := TokenKind.errorKind, pos := 1 } :=
  ⟨by decide,
   (tokenize_total_never_aborts
      [RawLexeme.wellFormed 5, RawLexeme.malformedLiteral 7] 0 2).2.2 1 7
      (by decide) (by decide) (by decide)⟩

theorem parseItems_main_found (l : List RawItem) :
    (parseItems true l).foundSideEffect = l.any RawItem.hasSideEffects := by
  induction l with
  | nil => rfl
  | cons r rest ih =>
    by_cases h : r.hasSideEffects
    · simp [parseItems, h]
    · simp only [Bool.not_eq_true] at h
      simp [parseItems, h, ih]

theorem parseItems_main_done (l : List RawItem) :
    (parseItems true l).done = l.all (fun r => !r.hasSideEffects) := by
  induction l with
  | nil => rfl
  | cons r rest ih =>
    by_cases h : r.hasSideEffects
    · simp [parseItems, h]
    · simp only [Bool.not_eq_true] at h
      simp [parseItems, h, ih]

theorem parseItems_main_items (l : List RawItem) :
    (parseItems true l).items =
      (l.takeWhile (fun r => !r.hasSideEffects) ++
        (l.dropWhile (fun r => !r.hasSideEffects)).take 1).map
        (fun r => (parseItem r).1) := by
  induction l with
  | nil => rfl
  | cons r rest ih =>
    by_cases h : r.hasSideEffects
    · simp [parseItems, h, List.takeWhile_cons, List.dropWhile_cons]
    · simp only [Bool.not_eq_true] at h
      simp [parseItems, h, List.takeWhile_cons, List.dropWhile_cons, ih]

/-- C1: parsing a buffer into the main source file halts immediately after the
first top-level statement with observable side effects: the call reports a
side effect exactly when the buffer holds a side-effecting statement (which
is then the last parsed item), and Done is true exactly when the end of the
buffer was reached, that is, when no side-effecting statement stopped the
parse; in particular for the unit of an import declaration followed by the
expression statement, the call returns true with Done false and both items
are present in the unit afterwards. -/
theorem parseIntoSourceFile_main_spec (sf : SourceFile) (buffer : List RawItem) :
    ((parseIntoSourceFile sf true buffer).2.foundSideEffect = true ↔
        ∃ r ∈ buffer, r.hasSideEffects = true) ∧
    ((parseIntoSourceFile sf true buffer).2.done = true ↔
        ∀ r ∈ buffer, r.hasSideEffects = false) ∧
    ((parseIntoSourceFile sf true buffer).1.items =
        sf.items ++
          (buffer.takeWhile (fun r => !r.hasSideEffects) ++
            (buffer.dropWhile (fun r => !r.hasSideEffects)).take 1).map
            (fun r => (parseItem r).1)) ∧
    (parseIntoSourceFile { items := [] } true
        [RawItem.importDecl 0, RawItem.exprStmt 1] =
      ({ items := [Item.importDecl 0, Item.exprStmt 1] },
       { items := [Item.importDecl 0, Item.exprStmt 1], diags := [],
         foundSideEffect := true, done := false })) := by
  refine ⟨?_, ?_, ?_, by decide⟩
  · simp [parseIntoSourceFile, parseItems_main_found, List.any_eq_true]
  · simp [parseIntoSourceFile, parseItems_main_done, List.all_eq_true]
  · simp [parseIntoSourceFile, parseItems_main_items]

theorem parseIntoSourceFile_main_spec_w :
    parseIntoSourceFile { items := [] } true
        [RawItem.importDecl 0, RawItem.exprStmt 1] =
      ({ items := [Item.importDecl 0, Item.exprStmt 1] },
       { items := [Item.importDecl 0, Item.exprStmt 1], diags := [],
         foundSideEffect := true, done := false }) :=
  (parseIntoSourceFile_main_spec { items := [] }
    [RawItem.importDecl 0, RawItem.exprStmt 1]).2.2.2

/-- C7: a DeferredBody is resolved at most once: after a successful resolve
the resulting body rejects a second resolve, and a second delayed-parsing
pass over the same persistent state re-parses nothing. -/
theorem deferredBody_resolved_at_most_once (d d₁ : DeferredBody) (b : Nat)
    (st : PersistentParserState) :
    (resolveDeferredBody d = some (b, d₁) → resolveDeferredBody d₁ = none) ∧
    (performDelayedParsing (performDelayedParsing st).2).1 = [] := by
  constructor
  · intro h
    unfold resolveDeferredBody at h ⊢
    by_cases hd : d.resolved
    · simp [hd] at h
    · rw [if_neg hd, Option.some_inj, Prod.mk.injEq] at h
      have hres : d₁.resolved = true := by rw [← h.2]
      rw [if_pos hres]
  · simp [performDelayedParsing, List.filterMap_map, Function.comp,
      resolveDeferredBody]

theorem deferredBody_resolved_at_most_once_w :
    (resolveDeferredBody { tokens := [], declCtx := 0, resolved := false } =
        some (0, { tokens := [], declCtx := 0, resolved := true })) ∧
    resolveDeferredBody { tokens := [], declCtx := 0, resolved := true } = none :=
  ⟨by decide,
   (deferredBody_resolved_at_most_once
      { tokens := [], declCtx := 0, resolved := false }
      { tokens := [], declCtx := 0, resolved := true } 0
      { deferred := [] }).1 (by decide)⟩

theorem fillFrom_zero (f : TElem → TElem) (l : List TElem) :
    fillFrom f l 0 = l.map f := by
  simp [fillFrom]

theorem fillFrom_cons (f : TElem → TElem) (a : TElem) (l : List TElem)
    (s : Nat) : fillFrom f (a :: l) (s + 1) = a :: fillFrom f l s := by
  simp [fillFrom]

theorem fillFrom_nil (f : TElem → TElem) (s : Nat) : fillFrom f [] s = [] := by
  simp [fillFrom]

theorem map_idem_of_fix (f : TElem → TElem) (hf : ∀ e, f (f e) = f e)
    (l : List TElem) : (l.map f).map f = l.map f := by
  induction l with
  | nil => rfl
  | cons a l ih => simp [hf, ih]

theorem fillFrom_idem (f : TElem → TElem) (hf : ∀ e, f (f e) = f e)
    (l : List TElem) (s : Nat) :
    fillFrom f (fillFrom f l s) s = fillFrom f l s := by
  induction l generalizing s with
  | nil => simp [fillFrom_nil]
  | cons a l ih =>
    cases s with
    | zero => simp [fillFrom_zero, map_idem_of_fix f hf, hf]
    | succ m => simp [fillFrom_cons, ih]

theorem bindElem_idem (e : TElem) : bindElem (bindElem e) = bindElem e := by
  rcases e with ⟨it, b, sl⟩
  cases b <;> rfl

theorem checkElem_idem (e : TElem) : checkElem (checkElem e) = checkElem e := by
  rcases e with ⟨it, b, sl⟩
  cases sl <;> rfl

theorem performNameBinding_some (st st₁ : UnitState) (s : Nat)
    (h : performNameBinding st s = some st₁) :
    st₁ = { st with elems := fillFrom bindElem st.elems s, nbLast := s } := by
  unfold performNameBinding at h
  by_cases hlt : s < st.nbLast
  · simp [hlt] at h
  · rw [if_neg hlt, Option.some_inj] at h
    exact h.symm

theorem performTypeChecking_some (st st₁ : UnitState) (s : Nat)
    (h : performTypeChecking st s = some st₁) :
    st₁ = { st with elems := fillFrom checkElem st.elems s, tcLast := s } := by
  unfold performTypeChecking at h
  by_cases hlt : s < st.tcLast
  · simp [hlt] at h
  · rw [if_neg hlt, Option.some_inj] at h
    exact h.symm

theorem performSILGeneration_some (st st₁ : UnitState) (m : SILModule) (s : Nat)
    (h : performSILGeneration st s = some (m, st₁)) :
    m = { funcs := (st.elems.drop s).filterMap lowerElem } ∧
      st₁ = { st with sgLast := s } := by
  unfold performSILGeneration at h
  by_cases hlt : s < st.sgLast
  · simp [hlt] at h
  · rw [if_neg hlt, Option.some_inj, Prod.mk.injEq] at h
    exact ⟨h.1.symm, h.2.symm⟩

/-- C2: the StartElem offsets accepted by performNameBinding,
performTypeChecking and performSILGeneration on a SourceUnit are
monotonically non-decreasing across successive calls: after an accepted call
with offset s₁, a later call with a smaller offset s₂ is rejected (returns
none rather than processing), and any accepted later offset is at least s₁. -/
theorem startElem_monotonic (st st₁ : UnitState) (s₁ s₂ : Nat) :
    (performNameBinding st s₁ = some st₁ → s₂ < s₁ →
        performNameBinding st₁ s₂ = none) ∧
    (performNameBinding st s₁ = some st₁ → ∀ st₂,
        performNameBinding st₁ s₂ = some st₂ → s₁ ≤ s₂) ∧
    (performTypeChecking st s₁ = some st₁ → s₂ < s₁ →
        performTypeChecking st₁ s₂ = none) ∧
    (performTypeChecking st s₁ = some st₁ → ∀ st₂,
        performTypeChecking st₁ s₂ = some st₂ → s₁ ≤ s₂) ∧
    (∀ m, performSILGeneration st s₁ = some (m, st₁) → s₂ < s₁ →
        performSILGeneration st₁ s₂ = none) ∧
    (∀ m, performSILGeneration st s₁ = some (m, st₁) → ∀ p,
        performSILGeneration st₁ s₂ = some p → s₁ ≤ s₂) := by
  refine ⟨?_, ?_, ?_, ?_, ?_, ?_⟩
  · intro h hlt
    rw [performNameBinding_some st st₁ s₁ h]
    unfold performNameBinding
    simp [hlt]
  · intro h st₂ h₂
    rw [performNameBinding_some st st₁ s₁ h] at h₂
    unfold performNameBinding at h₂
    by_cases hlt : s₂ < s₁
    · simp [hlt] at h₂
    · omega
  · intro h hlt
    rw [performTypeChecking_some st st₁ s₁ h]
    unfold performTypeChecking
    simp [hlt]
  · intro h st₂ h₂
    rw [performTypeChecking_some st st₁ s₁ h] at h₂
    unfold performTypeChecking at h₂
    by_cases hlt : s₂ < s₁
    · simp [hlt] at h₂
    · omega
  · intro m h hlt
    rw [(performSILGeneration_some st st₁ m s₁ h).2]
    unfold performSILGeneration
    simp [hlt]
  · intro m h p h₂
    rw [(performSILGeneration_some st st₁ m s₁ h).2] at h₂
    unfold performSILGeneration at h₂
    by_cases hlt : s₂ < s₁
    · simp [hlt] at h₂
    · omega

theorem startElem_monotonic_w :
    (performNameBinding (mkUnit []) 2 =
        some { elems := [], diags := [], nbLast := 2, tcLast := 0, sgLast := 0 }) ∧
    performNameBinding
        { elems := [], diags := [], nbLast := 2, tcLast := 0, sgLast := 0 } 1 =
      none :=
  ⟨by decide,
   (startElem_monotonic (mkUnit [])
      { elems := [], diags := [], nbLast := 2, tcLast := 0, sgLast := 0 }
      2 1).1 (by decide) (by decide)⟩

/-- C5: each of performNameBinding, performTypeChecking and
performSILGeneration is idempotent at a fixed starting offset: after an
accepted call with offset s, repeating the call with the same offset is again
accepted and returns exactly the same unit state (and, for lowering, the same
SILModule), because every slot at or after s was already written once. -/
theorem phases_idempotent_at_fixed_offset (st st₁ : UnitState) (s : Nat) :
    (performNameBinding st s = some st₁ →
        performNameBinding st₁ s = some st₁) ∧
    (performTypeChecking st s = some st₁ →
        performTypeChecking st₁ s = some st₁) ∧
    (∀ m, performSILGeneration st s = some (m, st₁) →
        performSILGeneration st₁ s = some (m, st₁)) := by
  refine ⟨?_, ?_, ?_⟩
  · intro h
    rw [performNameBinding_some st st₁ s h]
    unfold performNameBinding
    simp [fillFrom_idem bindElem bindElem_idem]
  · intro h
    rw [performTypeChecking_some st st₁ s h]
    unfold performTypeChecking
    simp [fillFrom_idem checkElem checkElem_idem]
  · intro m h
    have hm := performSILGeneration_some st st₁ m s h
    rw [hm.2, hm.1]
    unfold performSILGeneration
    simp

theorem phases_idempotent_at_fixed_offset_w :
    (performNameBinding (mkUnit [sampleElem 3]) 0 =
        some { elems := [{ item := Item.funcDecl 3, binding := some 3,
                           slot := none }],
               diags := [], nbLast := 0, tcLast := 0, sgLast := 0 }) ∧
    performNameBinding
        { elems := [{ item := Item.funcDecl 3, binding := some 3, slot := none }],
          diags := [], nbLast := 0, tcLast := 0, sgLast := 0 } 0 =
      some { elems := [{ item := Item.funcDecl 3, binding := some 3,
                         slot := none }],
             diags := [], nbLast := 0, tcLast := 0, sgLast := 0 } :=
  ⟨by decide,
   (phases_idempotent_at_fixed_offset (mkUnit [sampleElem 3])
      { elems := [{ item := Item.funcDecl 3, binding := some 3, slot := none }],
        diags := [], nbLast := 0, tcLast := 0, sgLast := 0 } 0).1 (by decide)⟩

theorem fillFrom_append (f : TElem → TElem) (q c : List TElem) :
    fillFrom f (q ++ c) q.length = q ++ c.map f := by
  unfold fillFrom
  rw [List.take_left, List.drop_left]

theorem runIncrNB_spec (chunks : List (List TElem)) :
    ∀ (q : List TElem) (d : List Diagnostic) (nb tc sg : Nat),
      nb ≤ q.length →
      ∃ nb', nb' ≤ (q ++ chunks.flatten.map bindElem).length ∧
        runIncrNB ⟨q, d, nb, tc, sg⟩ chunks =
          ⟨q ++ chunks.flatten.map bindElem, d, nb', tc, sg⟩ := by
  induction chunks with
  | nil =>
    intro q d nb tc sg hnb
    refine ⟨nb, by simpa using hnb, ?_⟩
    simp [runIncrNB]
  | cons c rest ih =>
    intro q d nb tc sg hnb
    have hstep : nbStep ⟨q, d, nb, tc, sg⟩ c =
        ⟨q ++ c.map bindElem, d, q.length, tc, sg⟩ := by
      unfold nbStep performNameBinding
      have hq : ¬ q.length < nb := by omega
      simp only [if_neg hq]
      simp [fillFrom_append]
    obtain ⟨nb', hle, hrun⟩ := ih (q ++ c.map bindElem) d q.length tc sg
      (by simp)
    refine ⟨nb', ?_, ?_⟩
    · simpa using hle
    · show runIncrNB _ (c :: rest) = _
      unfold runIncrNB
      rw [List.foldl_cons, hstep]
      unfold runIncrNB at hrun
      rw [hrun]
      simp

theorem runIncrTC_spec (chunks : List (List TElem)) :
    ∀ (q : List TElem) (d : List Diagnostic) (nb tc sg : Nat),
      tc ≤ q.length →
      ∃ tc', tc' ≤ (q ++ chunks.flatten.map checkElem).length ∧
        runIncrTC ⟨q, d, nb, tc, sg⟩ chunks =
          ⟨q ++ chunks.flatten.map checkElem, d, nb, tc', sg⟩ := by
  induction chunks with
  | nil =>
    intro q d nb tc sg htc
    refine ⟨tc, by simpa using htc, ?_⟩
    simp [runIncrTC]
  | cons c rest ih =>
    intro q d nb tc sg htc
    have hstep : tcStep ⟨q, d, nb, tc, sg⟩ c =
        ⟨q ++ c.map checkElem, d, nb, q.length, sg⟩ := by
      unfold tcStep performTypeChecking
      have hq : ¬ q.length < tc := by omega
      simp only [if_neg hq]
      simp [fillFrom_append]
    obtain ⟨tc', hle, hrun⟩ := ih (q ++ c.map checkElem) d nb q.length sg
      (by simp)
    refine ⟨tc', ?_, ?_⟩
    · simpa using hle
    · show runIncrTC _ (c :: rest) = _
      unfold runIncrTC
      rw [List.foldl_cons, hstep]
      unfold runIncrTC at hrun
      rw [hrun]
      simp

theorem runIncrSG_spec (chunks : List (List TElem)) :
    ∀ (q : List TElem) (d : List Diagnostic) (nb tc sg : Nat)
      (acc : List IRFunc),
      sg ≤ q.length →
      ∃ sg', sg' ≤ (q ++ chunks.flatten).length ∧
        runIncrSG (⟨q, d, nb, tc, sg⟩, acc) chunks =
          (⟨q ++ chunks.flatten, d, nb, tc, sg'⟩,
           acc ++ chunks.flatten.filterMap lowerElem) := by
  induction chunks with
  | nil =>
    intro q d nb tc sg acc hsg
    refine ⟨sg, by simpa using hsg, ?_⟩
    simp [runIncrSG]
  | cons c rest ih =>
    intro q d nb tc sg acc hsg
    have hstep : sgStep (⟨q, d, nb, tc, sg⟩, acc) c =
        (⟨q ++ c, d, nb, tc, q.length⟩, acc ++ c.filterMap lowerElem) := by
      unfold sgStep performSILGeneration
      have hq : ¬ q.length < sg := by omega
      simp only [if_neg hq]
      simp [List.drop_left]
    obtain ⟨sg', hle, hrun⟩ := ih (q ++ c) d nb tc q.length
      (acc ++ c.filterMap lowerElem) (by simp)
    refine ⟨sg', ?_, ?_⟩
    · simpa using hle
    · show runIncrSG _ (c :: rest) = _
      unfold runIncrSG
      rw [List.foldl_cons, hstep]
      unfold runIncrSG at hrun
      rw [hrun]
      simp

/-- C4: incremental equivalence: running name binding, type checking or IR
lowering over a strictly growing unit, one nonempty appended chunk at a time
with strictly increasing starting indices, and accumulating the results,
gives exactly the bindings, resolved types, diagnostics and IR functions of a
single call with starting index 0 over the whole unit. -/
theorem incremental_equivalence (chunks : List (List TElem))
    (hne : ∀ c ∈ chunks, c ≠ []) :
    (Option.map (fun st => (st.elems, st.diags))
        (performNameBinding (mkUnit chunks.flatten) 0) =
      some ((runIncrNB (mkUnit []) chunks).elems,
            (runIncrNB (mkUnit []) chunks).diags)) ∧
    (Option.map (fun st => (st.elems, st.diags))
        (performTypeChecking (mkUnit chunks.flatten) 0) =
      some ((runIncrTC (mkUnit []) chunks).elems,
            (runIncrTC (mkUnit []) chunks).diags)) ∧
    (Option.map (fun p => p.1.funcs)
        (performSILGeneration (mkUnit chunks.flatten) 0) =
      some (runIncrSG (mkUnit [], []) chunks).2) := by
  refine ⟨?_, ?_, ?_⟩
  · obtain ⟨nb', _, hrun⟩ := runIncrNB_spec chunks [] [] 0 0 0 (by simp)
    have hr : runIncrNB (mkUnit []) chunks =
        ⟨chunks.flatten.map bindElem, [], nb', 0, 0⟩ := by
      unfold mkUnit
      rw [hrun]
      simp
    rw [hr]
    unfold performNameBinding mkUnit
    simp [fillFrom_zero]
  · obtain ⟨tc', _, hrun⟩ := runIncrTC_spec chunks [] [] 0 0 0 (by simp)
    have hr : runIncrTC (mkUnit []) chunks =
        ⟨chunks.flatten.map checkElem, [], 0, tc', 0⟩ := by
      unfold mkUnit
      rw [hrun]
      simp
    rw [hr]
    unfold performTypeChecking mkUnit
    simp [fillFrom_zero]
  · obtain ⟨sg', _, hrun⟩ := runIncrSG_spec chunks [] [] 0 0 0 [] (by simp)
    have hr : runIncrSG (mkUnit [], []) chunks =
        (⟨chunks.flatten, [], 0, 0, sg'⟩, chunks.flatten.filterMap lowerElem) := by
      unfold mkUnit
      rw [hrun]
      simp
    rw [hr]
    unfold performSILGeneration mkUnit
    simp

theorem incremental_equivalence_w :
    (∀ c ∈ sampleChunks, c ≠ []) ∧
    Option.map (fun st => (st.elems, st.diags))
        (performNameBinding (mkUnit sampleChunks.flatten) 0) =
      some ((runIncrNB (mkUnit []) sampleChunks).elems,
            (runIncrNB (mkUnit []) sampleChunks).diags) :=
  ⟨by decide, (incremental_equivalence sampleChunks (by decide)).1⟩

theorem parseItems_batch_items (l : List RawItem) :
    (parseItems false l).items = l.map (fun r => (parseItem r).1) := by
  induction l with
  | nil => rfl
  | cons r rest ih => simp [parseItems, ih]

theorem parseItems_batch_diags (l : List RawItem) :
    (parseItems false l).diags =
      (l.map (fun r => (parseItem r).2)).flatten := by
  induction l with
  | nil => rfl
  | cons r rest ih => simp [parseItems, ih]

theorem lowerElem_analyzeItem (r : RawItem) :
    (lowerElem (analyzeItem (parseItem r).1)).isSome = r.isWellFormedFunc := by
  cases r with
  | importDecl m => rfl
  | exprStmt e => rfl
  | funcDecl n wf => cases wf <;> rfl

theorem length_filterMap_countP {α β : Type} (g : α → Option β) (l : List α) :
    (l.filterMap g).length = l.countP (fun a => (g a).isSome) := by
  induction l with
  | nil => rfl
  | cons a l ih =>
    cases hg : g a <;>
      simp [List.filterMap_cons, hg, List.countP_cons, ih]

theorem parseItem_diags_length (r : RawItem) :
    ((parseItem r).2).length = if r.isMalformedDecl then 1 else 0 := by
  cases r with
  | importDecl m => rfl
  | exprStmt e => rfl
  | funcDecl n wf => cases wf <;> rfl

theorem pipeline_funcs_length (buffer : List RawItem) :
    (pipeline buffer).funcs.length = buffer.countP RawItem.isWellFormedFunc := by
  show ((((parseItems false buffer).items).map analyzeItem).filterMap
      lowerElem).length = _
  rw [parseItems_batch_items, List.map_map, List.filterMap_map,
    length_filterMap_countP]
  induction buffer with
  | nil => rfl
  | cons r rest ih =>
    simp only [List.countP_cons, ih, Function.comp_apply, lowerElem_analyzeItem]

theorem pipeline_diags_length (buffer : List RawItem) :
    (pipeline buffer).diags.length = buffer.countP RawItem.isMalformedDecl := by
  show ((parseItems false buffer).diags).length = _
  rw [parseItems_batch_diags]
  induction buffer with
  | nil => rfl
  | cons r rest ih =>
    simp only [List.map_cons, List.flatten_cons, List.length_append, ih,
      List.countP_cons, parseItem_diags_length]
    cases hr : r.isMalformedDecl <;> simp [hr] <;> omega

/-- C9: a single malformed declaration among ten well-formed ones never
aborts its siblings: running the pipeline through IR lowering on any buffer
with exactly ten well-formed function declarations and exactly one malformed
declaration produces exactly ten lowered IR functions and exactly one
diagnostic, the one for the malformed declaration. -/
theorem malformed_decl_isolated (buffer : List RawItem)
    (h10 : buffer.countP RawItem.isWellFormedFunc = 10)
    (h1 : buffer.countP RawItem.isMalformedDecl = 1) :
    (pipeline buffer).funcs.length = 10 ∧ (pipeline buffer).diags.length = 1 := by
  rw [pipeline_funcs_length, pipeline_diags_length]
  exact ⟨h10, h1⟩

theorem malformed_decl_isolated_w :
    ([RawItem.funcDecl 0 true, RawItem.funcDecl 1 true, RawItem.funcDecl 2 true,
      RawItem.funcDecl 3 true, RawItem.funcDecl 4 true, RawItem.funcDecl 5 true,
      RawItem.funcDecl 6 true, RawItem.funcDecl 7 true, RawItem.funcDecl 8 true,
      RawItem.funcDecl 9 true, RawItem.funcDecl 10 false].countP
        RawItem.isWellFormedFunc = 10) ∧
    (pipeline
      [RawItem.funcDecl 0 true, RawItem.funcDecl 1 true, RawItem.funcDecl 2 true,
       RawItem.funcDecl 3 true, RawItem.funcDecl 4 true, RawItem.funcDecl 5 true,
       RawItem.funcDecl 6 true, RawItem.funcDecl 7 true, RawItem.funcDecl 8 true,
       RawItem.funcDecl 9 true, RawItem.funcDecl 10 false]).funcs.length = 10 ∧
    (pipeline
      [RawItem.funcDecl 0 true, RawItem.funcDecl 1 true, RawItem.funcDecl 2 true,
       RawItem.funcDecl 3 true, RawItem.funcDecl 4 true, RawItem.funcDecl 5 true,
       RawItem.funcDecl 6 true, RawItem.funcDecl 7 true, RawItem.funcDecl 8 true,
       RawItem.funcDecl 9 true, RawItem.funcDecl 10 false]).diags.length = 1 :=
  ⟨by decide,
   malformed_decl_isolated
     [RawItem.funcDecl 0 true, RawItem.funcDecl 1 true, RawItem.funcDecl 2 true,
      RawItem.funcDecl 3 true, RawItem.funcDecl 4 true, RawItem.funcDecl 5 true,
      RawItem.funcDecl 6 true, RawItem.funcDecl 7 true, RawItem.funcDecl 8 true,
      RawItem.funcDecl 9 true, RawItem.funcDecl 10 false]
     (by decide) (by decide)⟩

/-- C3: performTypeLocChecking returns false exactly on successful validation
of the already-parsed type expression and true on error, and it leaves the
diagnostic stream unchanged unless diagnostics were explicitly requested: the
stream is untouched whenever diagnostics were not requested, untouched on
success, and extended by exactly one diagnostic on a requested error. -/
theorem performTypeLocChecking_spec (t : TypeRepr) (sil pd : Bool)
    (diags : List Diagnostic) :
    ((performTypeLocChecking t sil pd diags).1 = false ↔
        validateType t = true) ∧
    (pd = false → (performTypeLocChecking t sil pd diags).2 = diags) ∧
    (validateType t = true →
        (performTypeLocChecking t sil pd diags).2 = diags) ∧
    (validateType t = false → pd = true →
        (performTypeLocChecking t sil pd diags).2 = diags ++ [{ span := 0 }]) := by
  unfold performTypeLocChecking
  by_cases hv : validateType t
  · simp [hv]
  · simp only [Bool.not_eq_true] at hv
    refine ⟨by simp [hv], ?_, by simp [hv], by simp [hv]⟩
    intro hpd
    simp [hv, hpd]

theorem performTypeLocChecking_spec_w :
    (performTypeLocChecking (TypeRepr.invalid 0) false false []).2 = [] :=
  (performTypeLocChecking_spec (TypeRepr.invalid 0) false false []).2.1 rfl

/-- C6: determinism: any two runs of IR lowering over the same typed element
sequence produce the same IR function list (the step relation LowersTo is
functional, and the executable lowering realizes it), and two runs of the
full pipeline on identical input yield identical diagnostics, identical
resolved types and structurally identical IR. -/
theorem pipeline_deterministic (buffer : List RawItem) (l : List TElem)
    (o₁ o₂ : List IRFunc) :
    (LowersTo l o₁ → LowersTo l o₂ → o₁ = o₂) ∧
    LowersTo l (l.filterMap lowerElem) ∧
    (∀ r₁ r₂ : PipelineOut, pipeline buffer = r₁ → pipeline buffer = r₂ →
        r₁.diags = r₂.diags ∧ r₁.types = r₂.types ∧ r₁.funcs = r₂.funcs) := by
  refine ⟨?_, ?_, ?_⟩
  · intro h₁
    induction h₁ generalizing o₂ with
    | nil =>
      intro h₂
      cases h₂
      rfl
    | skip he _ ih =>
      intro h₂
      cases h₂ with
      | skip he₂ ht => exact ih _ ht
      | emit he₂ ht => rw [he] at he₂; cases he₂
    | emit he _ ih =>
      intro h₂
      cases h₂ with
      | skip he₂ ht => rw [he] at he₂; cases he₂
      | emit he₂ ht =>
        rw [he] at he₂
        injection he₂ with hf
        rw [hf, ih _ ht]
  · induction l with
    | nil => exact LowersTo.nil
    | cons e rest ih =>
      cases hle : lowerElem e with
      | none => simpa [List.filterMap_cons, hle] using LowersTo.skip hle ih
      | some f => simpa [List.filterMap_cons, hle] using LowersTo.emit hle ih
  · intro r₁ r₂ h₁ h₂
    rw [← h₁, ← h₂]
    exact ⟨rfl, rfl, rfl⟩

theorem pipeline_deterministic_w : [sampleIR] = [sampleIR] :=
  (pipeline_deterministic [] [sampleTyped] [sampleIR] [sampleIR]).1
    (LowersTo.emit rfl LowersTo.nil) (LowersTo.emit rfl LowersTo.nil)

/-- C10: the module-level performSILGeneration carries the precondition
documented in the header but absent from the spec: it is defined, producing a
SILModule, exactly for modules that contain at least one source file. -/
theorem performSILGenerationModule_requires_sources (m : ModuleRepr) :
    (performSILGenerationModule m).isSome = true ↔ m.sourceFiles ≠ [] := by
  unfold performSILGenerationModule
  cases hm : m.sourceFiles with
  | nil => simp [hm]
  | cons f fs => simp [hm]

theorem performSILGenerationModule_requires_sources_w :
    (performSILGenerationModule { sourceFiles := [[sampleTyped]] }).isSome =
      true :=
  (performSILGenerationModule_requires_sources
    { sourceFiles := [[sampleTyped]] }).mpr (by decide)

end Swift
